import Mathlib

/-!
Shallow embedding of the todo persistence and ordering engine of the
`ai_todo_list` repository (Go), together with theorems checking the
natural-language specification against it.

Modelling conventions:
* `time.Time` is modelled as `Int` (an instant on a linear clock);
  `t1.After(t2)` is `t1 > t2`.  `*time.Time` (a nullable timestamp) is
  `Option Int`.
* `time.Now()` is passed explicitly as a `now : Int` argument.
* Go slices are modelled as `List Todo`; the in-place index swap of the
  sorting loops is `swapAt`.
* A Go method on a store mutates its receiver and returns an `error`;
  this is modelled as a function from the store state to a pair of an
  `Except String` result and the new store state (the state is returned
  unchanged when the method fails).
* The `for` loops of the sort are translated with an explicit fuel
  argument that only bounds the number of iterations; every entry point
  supplies fuel at least the list length, which is more than the number
  of iterations the Go loop performs, so the `j < len` / `i < len-1`
  guards (kept verbatim in the translation) are what actually stop the
  loops, exactly as in the source.
-/

namespace AiTodo

/-- The `Todo` record (declared identically in `main.go` and in the `db`
package).  Timestamps are `Int`, the nullable due date is `Option Int`. -/
structure Todo where
  id : Int
  title : String
  description : String
  priority : String
  status : String
  createdDate : Int
  dueDate : Option Int
  lastUpdated : Int
  estimatedDuration : String
  category : String
deriving Repr, DecidableEq, Inhabited

/-- The `priorityOrder` map of `GetAllTodos`:
`{"urgent": 1, "high": 2, "medium": 3, "low": 4}`.  A Go map lookup on a
missing key yields the zero value, hence the final `else 0`. -/
def priorityOrder (p : String) : Nat :=
  if p = "urgent" then 1
  else if p = "high" then 2
  else if p = "medium" then 3
  else if p = "low" then 4
  else 0

/-- Priority rank of an item, `priorityOrder[todo.Priority]`. -/
def rankOf (t : Todo) : Nat := priorityOrder t.priority

/-- The swap condition of the comparison in `GetAllTodos`:
`pi > pj || (pi == pj && a[i].DueDate != nil && a[j].DueDate != nil &&
a[i].DueDate.After(*a[j].DueDate))`. -/
def shouldSwap (x y : Todo) : Bool :=
  rankOf x > rankOf y ||
    (rankOf x == rankOf y &&
      match x.dueDate, y.dueDate with
      | some dx, some dy => dx > dy
      | _, _ => false)

/-- Slice indexing `a[k]` (the loops only index in bounds, so the
default value is never produced on the executions being modelled). -/
def entry (l : List Todo) (k : Nat) : Todo := l.getD k default

/-- `a[i], a[j] = a[j], a[i]` on a list (identity when an index is out of
bounds; the sorting loops only use in-bounds indices). -/
def swapAt (l : List Todo) (i j : Nat) : List Todo :=
  match l[i]?, l[j]? with
  | some x, some y => (l.set i y).set j x
  | _, _ => l

/-- Inner loop of the sort in `GetAllTodos`:
`for j := i + 1; j < len(a); j++ { if shouldSwap(a[i], a[j]) { swap } }`.
`fuel` only bounds the iteration count (see the module docstring). -/
def innerLoop (i : Nat) : Nat → List Todo → Nat → List Todo
  | 0, l, _ => l
  | fuel + 1, l, j =>
    if j < l.length then
      innerLoop i fuel (if shouldSwap (entry l i) (entry l j) then swapAt l i j else l) (j + 1)
    else l

/-- Outer loop of the sort: `for i := 0; i < len(a)-1; i++ { inner }`.
The Go condition `i < len(a)-1` on ints is `i + 1 < len(a)`. -/
def outerLoop : Nat → List Todo → Nat → List Todo
  | 0, l, _ => l
  | fuel + 1, l, i =>
    if i + 1 < l.length then
      outerLoop fuel (innerLoop i l.length l (i + 1)) (i + 1)
    else l

/-- The sorting pass of `GetAllTodos` (identical in
`SimpleDatabase.GetAllTodos` and `SQLiteDatabase.GetAllTodos`): the
nested exchange-sort loops run on a copy of the stored collection. -/
def sortTodos (l : List Todo) : List Todo := outerLoop l.length l 0

/-- In-memory store `SimpleDatabase`: the todo slice and the `nextID`
counter (the profile and the lock are irrelevant to the claims). -/
structure SimpleDB where
  todos : List Todo
  nextID : Int
deriving Repr, DecidableEq, Inhabited

/-- `NewSimpleDatabase`: empty slice, `nextID = 1`. -/
def newSimpleDB : SimpleDB := { todos := [], nextID := 1 }

/-- `SimpleDatabase.GetAllTodos`: copy the slice and sort the copy. -/
def getAllTodos (db : SimpleDB) : List Todo := sortTodos db.todos

/-- `SimpleDatabase.GetTodoByID`: linear scan, first id match, error
when absent. -/
def getTodoByID (db : SimpleDB) (i : Int) : Except String Todo :=
  match db.todos.find? (fun t => t.id == i) with
  | some t => .ok t
  | none => .error "todo not found"

/-- `SimpleDatabase.CreateTodo`: overwrite the caller's id with
`nextID`, advance `nextID`, stamp both timestamps with the current time,
append.  (No default injection happens here.) -/
def createTodo (db : SimpleDB) (todo : Todo) (now : Int) : Todo × SimpleDB :=
  let t := { todo with id := db.nextID, createdDate := now, lastUpdated := now }
  (t, { todos := db.todos ++ [t], nextID := db.nextID + 1 })

/-- Replace the first element whose id matches `todo.id` by `todo` with
the existing `CreatedDate` kept and `LastUpdated` set to `now`
(`SimpleDatabase.UpdateTodo`'s loop body); `none` when no id matches. -/
def updateList (l : List Todo) (todo : Todo) (now : Int) : Option (List Todo) :=
  match l with
  | [] => none
  | t :: rest =>
    if t.id == todo.id then
      some ({ todo with createdDate := t.createdDate, lastUpdated := now } :: rest)
    else
      (updateList rest todo now).map (t :: ·)

/-- `SimpleDatabase.UpdateTodo`. -/
def updateTodo (db : SimpleDB) (todo : Todo) (now : Int) : Except String Unit × SimpleDB :=
  match updateList db.todos todo now with
  | some l => (.ok (), { db with todos := l })
  | none => (.error "todo not found", db)

/-- Remove the first element with the given id
(`SimpleDatabase.DeleteTodo`'s loop body); `none` when no id matches. -/
def deleteFirst (l : List Todo) (i : Int) : Option (List Todo) :=
  match l with
  | [] => none
  | t :: rest =>
    if t.id == i then some rest
    else (deleteFirst rest i).map (t :: ·)

/-- `SimpleDatabase.DeleteTodo`. -/
def deleteTodo (db : SimpleDB) (i : Int) : Except String Unit × SimpleDB :=
  match deleteFirst db.todos i with
  | some l => (.ok (), { db with todos := l })
  | none => (.error "todo not found", db)

/-- The four known priority values of the enumeration used by
`priorityOrder`. -/
def knownPriority (s : String) : Prop :=
  s = "urgent" ∨ s = "high" ∨ s = "medium" ∨ s = "low"

instance decKnownPriority (s : String) : Decidable (knownPriority s) := by
  unfold knownPriority; infer_instance

/-- SQLite-backed store `SQLiteDatabase` (`db` package): the `todos`
table (a list of rows) and the Go-side `nextID` counter.  Only the
successful-insert path is modelled; a storage failure aborts the
operation before any state change and is outside these claims. -/
structure SQLiteDB where
  rows : List Todo
  nextID : Int
deriving Repr, DecidableEq, Inhabited

/-- `SQLiteDatabase.CreateTodo`: overwrite the id with `nextID`, stamp
both timestamps, inject defaults for empty `Status`/`Priority`/
`Category`, insert the row, then advance `nextID`. -/
def sqliteCreateTodo (db : SQLiteDB) (todo : Todo) (now : Int) : Todo × SQLiteDB :=
  let t0 := { todo with id := db.nextID, createdDate := now, lastUpdated := now }
  let t1 := if t0.status = "" then { t0 with status := "pending" } else t0
  let t2 := if t1.priority = "" then { t1 with priority := "medium" } else t1
  let t3 := if t2.category = "" then { t2 with category := "personal" } else t2
  (t3, { rows := db.rows ++ [t3], nextID := db.nextID + 1 })

/-- `Database.DeleteTodo` (`database.go`): a bare
`DELETE FROM todos WHERE id = ?` whose result is returned without
checking `RowsAffected`, so the operation reports success whether or not
a row matched. -/
def databaseDeleteTodo (table : List Todo) (i : Int) : Except String (List Todo) :=
  .ok (table.filter (fun t => ¬ t.id = i))

/-- The max-id scan of `SimpleDatabase.ImportFromJSON`:
`maxID := 0; for each todo { if todo.ID > maxID { maxID = todo.ID } }`. -/
def maxIDFold : List Todo → Int → Int
  | [], m => m
  | t :: rest, m => maxIDFold rest (if t.id > m then t.id else m)

/-- The next id computed when a store is initialised from persisted
items: `maxID + 1` (`SimpleDatabase.ImportFromJSON`; identically
`COALESCE(MAX(id), 0) + 1` in `SQLiteDatabase.updateNextID`). -/
def importNextID (todos : List Todo) : Int := maxIDFold todos 0 + 1

/-- One entity-store mutation, for reasoning about call sequences. -/
inductive Op where
  | create (t : Todo) (now : Int)
  | del (i : Int)

/-- Run a sequence of `CreateTodo` / `DeleteTodo` calls against a
`SimpleDatabase`, collecting the ids assigned by the creations. -/
def runOps : SimpleDB → List Op → SimpleDB × List Int
  | db, [] => (db, [])
  | db, Op.create t now :: ops =>
    ((runOps (createTodo db t now).2 ops).1,
      (createTodo db t now).1.id :: (runOps (createTodo db t now).2 ops).2)
  | db, Op.del i :: ops => runOps (deleteTodo db i).2 ops

/-! ### The tool-invocation layer (`MCPServer` of the main package,
wired to the `SimpleDatabase` by `main`).  A JSON argument map is
modelled by a record of `Option` fields: `some s` means the key is
present with a string value (`args[k].(string)` succeeds), `none` means
it is absent or not a string.  `time.Parse(time.RFC3339, s)` is an
uninterpreted parameter `parse : String → Option Int`; `parse s = none`
models text that is not a valid ISO-8601/RFC3339 timestamp. -/

/-- Arguments of the `create_todo` tool. -/
structure CreateArgs where
  title : Option String
  description : Option String
  priority : Option String
  category : Option String
  estimated_duration : Option String
  due_date : Option String
deriving Repr, DecidableEq

/-- Arguments of the `update_todo` tool (the id, a float64 in JSON, is
modelled as the integer it is converted to). -/
structure UpdateArgs where
  id : Option Int
  title : Option String
  description : Option String
  priority : Option String
  status : Option String
  category : Option String
  estimated_duration : Option String
  due_date : Option String
deriving Repr, DecidableEq

/-- `getStringArg`: the argument's string value, or `""` when absent. -/
def getStringArg (a : Option String) : String := a.getD ""

/-- The `due_date` handling shared by `executeCreateTodo` and
`executeUpdateTodo`: only when the argument is present and non-empty is
it parsed, and only a successful parse changes the record — a parse
failure is silently skipped. -/
def patchDue (t : Todo) (due : Option String) (parse : String → Option Int) : Todo :=
  match due with
  | some s =>
    if s ≠ "" then
      match parse s with
      | some d => { t with dueDate := some d }
      | none => t
    else t
  | none => t

/-- The record built by `executeCreateTodo` before the due date is
considered: given title, arguments via `getStringArg`,
`Status = "pending"`, both timestamps `now`, and the empty-string
defaults for priority and category. -/
def buildCreateTodo (args : CreateArgs) (title : String) (now : Int) : Todo :=
  let t0 : Todo :=
    { id := 0, title := title, description := getStringArg args.description,
      priority := getStringArg args.priority, category := getStringArg args.category,
      status := "pending", createdDate := now, dueDate := none, lastUpdated := now,
      estimatedDuration := getStringArg args.estimated_duration }
  let t1 := if t0.priority = "" then { t0 with priority := "medium" } else t0
  if t1.category = "" then { t1 with category := "personal" } else t1

/-- `MCPServer.executeCreateTodo`: require `title`, build the record,
apply the due-date argument, then call `db.CreateTodo`. -/
def executeCreateTodo (db : SimpleDB) (args : CreateArgs) (parse : String → Option Int)
    (now : Int) : Except String Todo × SimpleDB :=
  match args.title with
  | none => (.error "title is required", db)
  | some title =>
    (.ok (createTodo db (patchDue (buildCreateTodo args title now) args.due_date parse) now).1,
     (createTodo db (patchDue (buildCreateTodo args title now) args.due_date parse) now).2)

/-- The field-by-field overwrite of `executeUpdateTodo`: each field
whose argument is present replaces the stored one
(`if v, ok := args[k].(string); ok { todo.K = v }`). -/
def patchFields (t0 : Todo) (args : UpdateArgs) : Todo :=
  { t0 with
    title := args.title.getD t0.title,
    description := args.description.getD t0.description,
    priority := args.priority.getD t0.priority,
    status := args.status.getD t0.status,
    category := args.category.getD t0.category,
    estimatedDuration := args.estimated_duration.getD t0.estimatedDuration }

/-- `MCPServer.executeUpdateTodo`: require `id`, read the existing
record, overwrite exactly the fields present in the argument map
(`due_date` only when non-empty and parseable), stamp `LastUpdated`,
and write the patched record back through `db.UpdateTodo`. -/
def executeUpdateTodo (db : SimpleDB) (args : UpdateArgs) (parse : String → Option Int)
    (now : Int) : Except String Unit × SimpleDB :=
  match args.id with
  | none => (.error "id is required", db)
  | some i =>
    match getTodoByID db i with
    | .error _ => (.error "todo not found", db)
    | .ok t0 =>
      updateTodo db
        { patchDue (patchFields t0 args) args.due_date parse with lastUpdated := now } now

/-- The record that ends up in the store after a successful
`executeUpdateTodo` on the existing record `t0`: the patched record,
with the stored `createdDate` force-preserved and `lastUpdated`
stamped by `UpdateTodo`. -/
def storedAfterUpdate (t0 : Todo) (args : UpdateArgs) (parse : String → Option Int)
    (now : Int) : Todo :=
  { patchDue (patchFields t0 args) args.due_date parse with
    createdDate := t0.createdDate, lastUpdated := now }

/-! ### Concrete fixtures used by the per-claim instances -/

/-- A concrete todo record with the given id, priority and due date
(the remaining fields are arbitrary but fixed). -/
def mkItem (i : Int) (p : String) (d : Option Int) : Todo :=
  { id := i, title := "", description := "", priority := p, status := "pending",
    createdDate := 0, dueDate := d, lastUpdated := 0, estimatedDuration := "",
    category := "personal" }

/-- Item A of the ordering test: high priority, due day 2. -/
def itemA : Todo := mkItem 1 "high" (some 2)

/-- Item B of the ordering test: urgent priority, due day 5. -/
def itemB : Todo := mkItem 2 "urgent" (some 5)

/-- Item C of the ordering test: high priority, due day 1. -/
def itemC : Todo := mkItem 3 "high" (some 1)

/-- Item D of the tie-break test: medium priority, no due date. -/
def itemD : Todo := mkItem 1 "medium" none

/-- Item E of the tie-break test: medium priority, due day 1. -/
def itemE : Todo := mkItem 2 "medium" (some 1)

/-- Two medium-priority items without due dates (they compare equal
under both sort keys but are distinct records), and an urgent item. -/
def itemM1 : Todo := mkItem 1 "medium" none

/-- See `itemM1`. -/
def itemM2 : Todo := mkItem 2 "medium" none

/-- See `itemM1`. -/
def itemU : Todo := mkItem 3 "urgent" none

/-- The creation request `{title: "x"}`: only the title is set, every
other field is the zero value. -/
def reqTitleX : Todo :=
  { id := 0, title := "x", description := "", priority := "", status := "",
    createdDate := 0, dueDate := none, lastUpdated := 0, estimatedDuration := "",
    category := "" }

/-- A parse outcome under which the text supplied in the arguments is
not a valid RFC3339 timestamp. -/
def parseNone : String → Option Int := fun _ => none

/-- `create_todo` arguments with a title and a malformed due date. -/
def argsBadDue : CreateArgs :=
  { title := some "x", description := none, priority := none, category := none,
    estimated_duration := none, due_date := some "not-a-date" }

/-- `update_todo` arguments that patch only the title of item 1. -/
def argsUpd : UpdateArgs :=
  { id := some 1, title := some "new", description := none, priority := none,
    status := none, category := none, estimated_duration := none, due_date := none }

/-! ### Basic facts about `swapAt` and the loops -/

theorem swapAt_length (l : List Todo) (i j : Nat) : (swapAt l i j).length = l.length := by
  unfold swapAt
  rcases h1 : l[i]? with _ | x <;> rcases h2 : l[j]? with _ | y <;> simp

theorem entry_swapAt_left (l : List Todo) (i j : Nat) (hi : i < l.length)
    (hj : j < l.length) : entry (swapAt l i j) i = entry l j := by
  unfold entry swapAt
  rw [List.getElem?_eq_getElem hi, List.getElem?_eq_getElem hj]
  simp only [List.getD_eq_getElem?_getD, List.getElem?_set, List.length_set]
  rcases eq_or_ne j i with h | h
  · subst h; simp [hj, List.getElem?_eq_getElem hj]
  · simp [h, hi, List.getElem?_eq_getElem hi, List.getElem?_eq_getElem hj]

theorem entry_swapAt_right (l : List Todo) (i j : Nat) (hi : i < l.length)
    (hj : j < l.length) : entry (swapAt l i j) j = entry l i := by
  unfold entry swapAt
  rw [List.getElem?_eq_getElem hi, List.getElem?_eq_getElem hj]
  simp [List.getD_eq_getElem?_getD, List.getElem?_set, List.length_set, hj,
    List.getElem?_eq_getElem hi, List.getElem?_eq_getElem hj]

theorem entry_swapAt_other (l : List Todo) (i j k : Nat) (hki : k ≠ i) (hkj : k ≠ j) :
    entry (swapAt l i j) k = entry l k := by
  unfold entry swapAt
  rcases h1 : l[i]? with _ | x <;> rcases h2 : l[j]? with _ | y <;>
    simp [List.getD_eq_getElem?_getD, List.getElem?_set_ne (Ne.symm hki),
      List.getElem?_set_ne (Ne.symm hkj)]

theorem innerLoop_length (i : Nat) :
    ∀ (fuel : Nat) (l : List Todo) (j : Nat), (innerLoop i fuel l j).length = l.length := by
  intro fuel
  induction fuel with
  | zero => intro l j; rfl
  | succ n ih =>
    intro l j
    unfold innerLoop
    split
    · rw [ih]; split <;> simp [swapAt_length]
    · rfl

theorem outerLoop_length :
    ∀ (fuel : Nat) (l : List Todo) (i : Nat), (outerLoop fuel l i).length = l.length := by
  intro fuel
  induction fuel with
  | zero => intro l i; rfl
  | succ n ih =>
    intro l i
    unfold outerLoop
    split
    · rw [ih, innerLoop_length]
    · rfl

theorem sortTodos_length (l : List Todo) : (sortTodos l).length = l.length :=
  outerLoop_length l.length l 0

/-- Positions strictly below `j` and different from `i` are untouched by
the inner loop. -/
theorem innerLoop_entry_lt (i : Nat) :
    ∀ (fuel : Nat) (l : List Todo) (j k : Nat), k ≠ i → k < j →
      entry (innerLoop i fuel l j) k = entry l k := by
  intro fuel
  induction fuel with
  | zero => intro l j k _ _; rfl
  | succ n ih =>
    intro l j k hki hkj
    unfold innerLoop
    split
    · rw [ih _ _ k hki (Nat.lt_succ_of_lt hkj)]
      split
      · exact entry_swapAt_other l i _ k hki (Nat.ne_of_lt hkj)
      · rfl
    · rfl

/-- A pointwise property of all entries in the region `[i, length)` is
preserved by the inner loop (its swaps stay inside the region). -/
theorem innerLoop_region (i : Nat) (P : Todo → Prop) :
    ∀ (fuel : Nat) (l : List Todo) (j : Nat), i ≤ j →
      (∀ k, i ≤ k → k < l.length → P (entry l k)) →
      ∀ k, i ≤ k → k < (innerLoop i fuel l j).length → P (entry (innerLoop i fuel l j) k) := by
  intro fuel
  induction fuel with
  | zero => intro l j _ h k hik hk; exact h k hik hk
  | succ n ih =>
    intro l j hij h k hik hk
    rw [innerLoop] at hk ⊢
    by_cases hjl : j < l.length
    · rw [if_pos hjl] at hk ⊢
      have hlen : (if shouldSwap (entry l i) (entry l j) then swapAt l i j else l).length
          = l.length := by split <;> simp [swapAt_length]
      refine ih _ (j + 1) (Nat.le_succ_of_le hij) ?_ k hik hk
      intro m him hm
      rw [hlen] at hm
      split
      · rename_i hswap
        have hil : i < l.length := Nat.lt_of_le_of_lt hij hjl
        rcases eq_or_ne m i with hmi | hmi
        · rw [hmi, entry_swapAt_left l i j hil hjl]; exact h j hij hjl
        · rcases eq_or_ne m j with hmj | hmj
          · rw [hmj, entry_swapAt_right l i j hil hjl]; exact h i (Nat.le_refl i) hil
          · rw [entry_swapAt_other l i j m hmi hmj]; exact h m him hm
      · exact h m him hm
    · rw [if_neg hjl] at hk ⊢
      exact h k hik hk

theorem rank_ge_of_shouldSwap (x y : Todo) (h : shouldSwap x y = true) :
    rankOf y ≤ rankOf x := by
  unfold shouldSwap at h
  simp only [Bool.or_eq_true, Bool.and_eq_true, decide_eq_true_eq, beq_iff_eq] at h
  rcases h with h | ⟨h, _⟩
  · exact Nat.le_of_lt h
  · exact Nat.le_of_eq h.symm

theorem rank_le_of_not_shouldSwap (x y : Todo) (h : shouldSwap x y = false) :
    rankOf x ≤ rankOf y := by
  unfold shouldSwap at h
  simp only [Bool.or_eq_false_iff, decide_eq_false_iff_not, Nat.not_lt] at h
  exact h.1

/-- Main inner-loop invariant: after the pass, the entry at `i` is
rank-minimal among the entries at positions `(i, j + fuel)`. -/
theorem innerLoop_min (i : Nat) :
    ∀ (fuel : Nat) (l : List Todo) (j : Nat), i < j → i < l.length →
      (∀ k, i < k → k < j → k < l.length → rankOf (entry l i) ≤ rankOf (entry l k)) →
      ∀ k, i < k → k < j + fuel → k < (innerLoop i fuel l j).length →
        rankOf (entry (innerLoop i fuel l j) i) ≤ rankOf (entry (innerLoop i fuel l j) k) := by
  intro fuel
  induction fuel with
  | zero => intro l j hij _ h k hik hkj hk; exact h k hik (by omega) hk
  | succ n ih =>
    intro l j hij hil h k hik hkj hk
    rw [innerLoop] at hk ⊢
    by_cases hjl : j < l.length
    · rw [if_pos hjl] at hk ⊢
      have hlen : (if shouldSwap (entry l i) (entry l j) then swapAt l i j else l).length
          = l.length := by split <;> simp [swapAt_length]
      refine ih _ (j + 1) (Nat.lt_succ_of_lt hij) (by rwa [hlen]) ?_ k hik (by omega) hk
      intro m him hmj hml
      rw [hlen] at hml
      split
      · rename_i hswap
        have hle : rankOf (entry l j) ≤ rankOf (entry l i) :=
          rank_ge_of_shouldSwap _ _ hswap
        rw [entry_swapAt_left l i j hil hjl]
        rcases eq_or_ne m j with rfl | hmj'
        · rw [entry_swapAt_right l i m hil hjl]; exact hle
        · rw [entry_swapAt_other l i j m (Nat.ne_of_gt him) hmj']
          exact Nat.le_trans hle (h m him (by omega) hml)
      · rcases eq_or_ne m j with rfl | hmj'
        · rename_i hswap
          exact rank_le_of_not_shouldSwap _ _ (Bool.eq_false_iff.mpr hswap)
        · exact h m him (by omega) hml
    · rw [if_neg hjl] at hk ⊢
      exact h k hik (by omega) hk

/-- Outer-loop invariant: entries at positions below `i` are rank-sorted
below everything to their right, and one more outer iteration extends
the sorted prefix by one. -/
theorem outerLoop_sorted :
    ∀ (fuel : Nat) (l : List Todo) (i : Nat),
      (∀ p q, p < q → q < l.length → p < i → rankOf (entry l p) ≤ rankOf (entry l q)) →
      ∀ p q, p < q → q < (outerLoop fuel l i).length → p < i + fuel →
        rankOf (entry (outerLoop fuel l i) p) ≤ rankOf (entry (outerLoop fuel l i) q) := by
  intro fuel
  induction fuel with
  | zero => intro l i h p q hpq hq hpi; exact h p q hpq hq (by omega)
  | succ n ih =>
    intro l i h p q hpq hq hpi
    rw [outerLoop] at hq ⊢
    by_cases hil : i + 1 < l.length
    · rw [if_pos hil] at hq ⊢
      have hlen : (innerLoop i l.length l (i + 1)).length = l.length := innerLoop_length ..
      refine ih _ (i + 1) ?_ p q hpq hq (by omega)
      intro p' q' hpq' hq' hpi'
      rw [hlen] at hq'
      rcases Nat.lt_or_ge p' i with hp' | hp'
      · have hp'fix : entry (innerLoop i l.length l (i + 1)) p' = entry l p' :=
          innerLoop_entry_lt i _ l (i + 1) p' (Nat.ne_of_lt hp') (by omega)
        rcases Nat.lt_or_ge q' i with hq'' | hq''
        · rw [hp'fix, innerLoop_entry_lt i _ l (i + 1) q' (Nat.ne_of_lt hq'') (by omega)]
          exact h p' q' hpq' hq' hp'
        · rw [hp'fix]
          exact innerLoop_region i (fun t => rankOf (entry l p') ≤ rankOf t) _ l (i + 1)
            (Nat.le_succ i)
            (fun k hik hkl => h p' k (by omega) hkl hp') q' hq'' (by rwa [hlen])
      · have hpi'' : p' = i := by omega
        rw [hpi'']
        exact innerLoop_min i l.length l (i + 1) (Nat.lt_succ_self i)
          (by omega) (fun k h1 h2 _ => by omega) q' (by omega) (by omega) (by rwa [hlen])
    · rw [if_neg hil] at hq ⊢
      have : l.length ≤ i + 1 := by omega
      exact h p q hpq hq (by omega)

/-- The exchange sort leaves the entries in nondecreasing priority-rank
order. -/
theorem sortTodos_rank_sorted (l : List Todo) :
    ∀ p q, p < q → q < (sortTodos l).length →
      rankOf (entry (sortTodos l) p) ≤ rankOf (entry (sortTodos l) q) := by
  intro p q hpq hq
  have hlen := sortTodos_length l
  exact outerLoop_sorted l.length l 0 (fun _ _ _ _ h => absurd h (Nat.not_lt_zero _))
    p q hpq hq (by omega)

/-! ### Comparator facts and pair-sorting -/

theorem shouldSwap_eq_false (x y : Todo) (hk : rankOf x = rankOf y)
    (hd : x.dueDate = none ∨ y.dueDate = none ∨ x.dueDate = y.dueDate) :
    shouldSwap x y = false := by
  unfold shouldSwap
  rcases hx : x.dueDate with _ | dx <;> rcases hy : y.dueDate with _ | dy <;> simp_all

theorem sortTodos_pair (x y : Todo) (h : shouldSwap x y = false) :
    sortTodos [x, y] = [x, y] := by
  simp [sortTodos, outerLoop, innerLoop, entry, h]

/-! ### Rank / known-priority facts -/

theorem priorityOrder_eq_zero (s : String) (h : ¬ knownPriority s) :
    priorityOrder s = 0 := by
  unfold knownPriority at h
  push_neg at h
  simp [priorityOrder, h.1, h.2.1, h.2.2.1, h.2.2.2]

theorem priorityOrder_pos (s : String) (h : knownPriority s) :
    1 ≤ priorityOrder s := by
  rcases h with h | h | h | h <;> subst h <;> decide

theorem known_of_priorityOrder_pos (s : String) (h : 1 ≤ priorityOrder s) :
    knownPriority s := by
  by_cases hk : knownPriority s
  · exact hk
  · rw [priorityOrder_eq_zero s hk] at h; omega

/-! ### The claims -/

/-- C1: for the items A(high, due 2), B(urgent, due 5), C(high, due 1),
in every insertion order, `GetAllTodos` returns [B, C, A]: the urgent
item first, then the two high-priority items in ascending due-date
order. -/
theorem claim1_ordering_BCA :
    getAllTodos ⟨[itemA, itemB, itemC], 4⟩ = [itemB, itemC, itemA] ∧
    getAllTodos ⟨[itemA, itemC, itemB], 4⟩ = [itemB, itemC, itemA] ∧
    getAllTodos ⟨[itemB, itemA, itemC], 4⟩ = [itemB, itemC, itemA] ∧
    getAllTodos ⟨[itemB, itemC, itemA], 4⟩ = [itemB, itemC, itemA] ∧
    getAllTodos ⟨[itemC, itemA, itemB], 4⟩ = [itemB, itemC, itemA] ∧
    getAllTodos ⟨[itemC, itemB, itemA], 4⟩ = [itemB, itemC, itemA] := by
  decide

/-- C2 counterexample: the exchange sort of `GetAllTodos` is not
stable.  `itemM1` and `itemM2` compare equal under both sort keys
(equal rank, no due dates) and are stored in the order [M1, M2], yet
`GetAllTodos` returns them in the order [M2, M1]: the swap of `itemU`
into position 0 moves `itemM1` behind `itemM2`. -/
theorem claim2_stability_counterexample :
    rankOf itemM1 = rankOf itemM2 ∧ itemM1.dueDate = none ∧ itemM2.dueDate = none ∧
    itemM1 ≠ itemM2 ∧
    getAllTodos ⟨[itemM1, itemM2, itemU], 4⟩ = [itemU, itemM2, itemM1] := by
  decide

/-- C2 (amended): the exchange sort is not stable in general, but any
two items that compare equal under both sort keys (equal priority rank,
and the due-date tie-break not applicable or equal) keep their input
order in a two-item collection. -/
theorem claim2_pair_stability (x y : Todo) (n : Int) (hk : rankOf x = rankOf y)
    (hd : x.dueDate = none ∨ y.dueDate = none ∨ x.dueDate = y.dueDate) :
    getAllTodos ⟨[x, y], n⟩ = [x, y] :=
  sortTodos_pair x y (shouldSwap_eq_false x y hk hd)

theorem claim2_pair_stability_witness :
    getAllTodos ⟨[itemM1, itemM2], 3⟩ = [itemM1, itemM2] :=
  claim2_pair_stability itemM1 itemM2 3 rfl (Or.inl rfl)

/-- C3: the due-date tie-break is partial — whenever two items have
equal priority rank and at least one of them has no due date, the
comparator never swaps; concretely, D(medium, no due date) and
E(medium, due 1) stored in the order [D, E] are returned in the order
[D, E] by `GetAllTodos`, even though E's due date is earlier than
"never". -/
theorem claim3_partial_tiebreak :
    (∀ x y : Todo, rankOf x = rankOf y → (x.dueDate = none ∨ y.dueDate = none) →
      shouldSwap x y = false) ∧
    getAllTodos ⟨[itemD, itemE], 3⟩ = [itemD, itemE] := by
  constructor
  · intro x y hk hd
    exact shouldSwap_eq_false x y hk (by tauto)
  · decide

theorem claim3_partial_tiebreak_witness : shouldSwap itemD itemE = false :=
  claim3_partial_tiebreak.1 itemD itemE rfl (Or.inl rfl)

/-- C4: a priority string outside {urgent, high, medium, low} is ranked
0, which is strictly below every known rank, and in the output of
`GetAllTodos` every item with an unknown priority comes before every
item with a known priority: equivalently, once a position holds a
known-priority item, all later positions do too. -/
theorem claim4_unknown_priority_sorts_first :
    (∀ s, ¬ knownPriority s → priorityOrder s = 0) ∧
    (∀ s, knownPriority s → 1 ≤ priorityOrder s) ∧
    (∀ (db : SimpleDB) (p q : Nat), p < q → q < (getAllTodos db).length →
      knownPriority (entry (getAllTodos db) p).priority →
      knownPriority (entry (getAllTodos db) q).priority) := by
  refine ⟨priorityOrder_eq_zero, priorityOrder_pos, ?_⟩
  intro db p q hpq hq hknown
  unfold getAllTodos at *
  have h := sortTodos_rank_sorted db.todos p q hpq hq
  have h1 : 1 ≤ rankOf (entry (sortTodos db.todos) p) := priorityOrder_pos _ hknown
  exact known_of_priorityOrder_pos _ (Nat.le_trans h1 h)

theorem claim4_unknown_priority_sorts_first_witness :
    priorityOrder "critical" = 0 ∧ 1 ≤ priorityOrder "urgent" ∧
    knownPriority (entry (getAllTodos ⟨[itemB, itemA], 3⟩) 1).priority :=
  ⟨claim4_unknown_priority_sorts_first.1 "critical" (by decide),
   claim4_unknown_priority_sorts_first.2.1 "urgent" (Or.inl rfl),
   claim4_unknown_priority_sorts_first.2.2 ⟨[itemB, itemA], 3⟩ 0 1 (by decide) (by decide)
     (by decide)⟩

/-! ### Store-scan facts -/

theorem getTodoByID_ok (db : SimpleDB) (i : Int) (t : Todo)
    (h : getTodoByID db i = .ok t) :
    db.todos.find? (fun u => u.id == i) = some t ∧ t.id = i := by
  unfold getTodoByID at h
  rcases hf : db.todos.find? (fun u => u.id == i) with _ | u
  · rw [hf] at h; exact absurd h (by simp)
  · rw [hf] at h
    injection h with h'
    subst h'
    exact ⟨hf, by simpa using List.find?_some hf⟩

theorem getTodoByID_eq_error (db : SimpleDB) (i : Int)
    (h : ∀ t ∈ db.todos, t.id ≠ i) : getTodoByID db i = .error "todo not found" := by
  unfold getTodoByID
  have hf : db.todos.find? (fun u => u.id == i) = none :=
    List.find?_eq_none.mpr (fun t ht => by simpa using h t ht)
  rw [hf]

theorem updateList_some (todo : Todo) (now : Int) :
    ∀ (l : List Todo) (t0 : Todo), l.find? (fun u => u.id == todo.id) = some t0 →
      ∃ l', updateList l todo now = some l' ∧
        l'.find? (fun u => u.id == todo.id) =
          some { todo with createdDate := t0.createdDate, lastUpdated := now } := by
  intro l
  induction l with
  | nil => intro t0 h; simp at h
  | cons t rest ih =>
    intro t0 h
    by_cases hb : t.id = todo.id
    · rw [List.find?_cons_of_pos _ (by simpa using hb)] at h
      injection h with h'
      subst h'
      refine ⟨{ todo with createdDate := t.createdDate, lastUpdated := now } :: rest, ?_, ?_⟩
      · unfold updateList
        rw [if_pos (by simpa using hb)]
      · rw [List.find?_cons_of_pos _ (by simp)]
    · rw [List.find?_cons_of_neg _ (by simpa using hb)] at h
      obtain ⟨l'', h1, h2⟩ := ih t0 h
      refine ⟨t :: l'', ?_, ?_⟩
      · unfold updateList
        rw [if_neg (by simpa using hb), h1]
        rfl
      · rw [List.find?_cons_of_neg _ (by simpa using hb)]
        exact h2

theorem updateList_none (todo : Todo) (now : Int) :
    ∀ l : List Todo, (∀ t ∈ l, t.id ≠ todo.id) → updateList l todo now = none := by
  intro l
  induction l with
  | nil => intro _; rfl
  | cons t rest ih =>
    intro h
    unfold updateList
    rw [if_neg (by simpa using h t (List.mem_cons_self t rest)),
      ih (fun u hu => h u (List.mem_cons_of_mem t hu))]
    rfl

theorem deleteFirst_none (i : Int) :
    ∀ l : List Todo, (∀ t ∈ l, t.id ≠ i) → deleteFirst l i = none := by
  intro l
  induction l with
  | nil => intro _; rfl
  | cons t rest ih =>
    intro h
    unfold deleteFirst
    rw [if_neg (by simpa using h t (List.mem_cons_self t rest)),
      ih (fun u hu => h u (List.mem_cons_of_mem t hu))]
    rfl

theorem deleteFirst_some (i : Int) :
    ∀ l : List Todo, (∃ t ∈ l, t.id = i) →
      ∃ l1 t l2, l = l1 ++ t :: l2 ∧ t.id = i ∧ (∀ u ∈ l1, u.id ≠ i) ∧
        deleteFirst l i = some (l1 ++ l2) := by
  intro l
  induction l with
  | nil => intro h; simp at h
  | cons t rest ih =>
    intro h
    by_cases ht : t.id = i
    · refine ⟨[], t, rest, rfl, ht, by simp, ?_⟩
      unfold deleteFirst
      rw [if_pos (by simpa using ht)]
      rfl
    · have hrest : ∃ u ∈ rest, u.id = i := by
        obtain ⟨u, hu, hui⟩ := h
        rcases List.mem_cons.mp hu with rfl | hmem
        · exact absurd hui ht
        · exact ⟨u, hmem, hui⟩
      obtain ⟨l1, u, l2, he, hui, hl1, hd⟩ := ih hrest
      refine ⟨t :: l1, u, l2, by rw [he]; rfl, hui, ?_, ?_⟩
      · intro v hv
        rcases List.mem_cons.mp hv with rfl | hv'
        · exact ht
        · exact hl1 v hv'
      · unfold deleteFirst
        rw [if_neg (by simpa using ht), hd]
        rfl

theorem deleteTodo_nextID (db : SimpleDB) (i : Int) :
    (deleteTodo db i).2.nextID = db.nextID := by
  unfold deleteTodo
  rcases hd : deleteFirst db.todos i with _ | l <;> rfl

/-! ### Identity-allocator facts -/

theorem maxIDFold_le : ∀ (l : List Todo) (m : Int), m ≤ maxIDFold l m := by
  intro l
  induction l with
  | nil => intro m; exact le_refl m
  | cons t rest ih =>
    intro m
    unfold maxIDFold
    refine le_trans ?_ (ih _)
    split <;> omega

theorem maxIDFold_mem_le :
    ∀ (l : List Todo) (m : Int) (t : Todo), t ∈ l → t.id ≤ maxIDFold l m := by
  intro l
  induction l with
  | nil => intro m t ht; simp at ht
  | cons u rest ih =>
    intro m t ht
    rcases List.mem_cons.mp ht with rfl | hmem
    · unfold maxIDFold
      refine le_trans ?_ (maxIDFold_le rest _)
      split <;> omega
    · exact ih _ t hmem

theorem maxIDFold_attained :
    ∀ (l : List Todo) (m : Int), maxIDFold l m = m ∨ ∃ t ∈ l, maxIDFold l m = t.id := by
  intro l
  induction l with
  | nil => intro m; exact Or.inl rfl
  | cons t rest ih =>
    intro m
    unfold maxIDFold
    rcases ih (if t.id > m then t.id else m) with h | ⟨u, hu, hid⟩
    · rw [h]
      split
      · exact Or.inr ⟨t, List.mem_cons_self t rest, rfl⟩
      · exact Or.inl rfl
    · exact Or.inr ⟨u, List.mem_cons_of_mem t hu, hid⟩

theorem runOps_nextID_le : ∀ (ops : List Op) (db : SimpleDB),
    db.nextID ≤ (runOps db ops).1.nextID := by
  intro ops
  induction ops with
  | nil => intro db; exact le_refl _
  | cons op rest ih =>
    intro db
    cases op with
    | create t now =>
      simp only [runOps]
      have h := ih (createTodo db t now).2
      have h2 : (createTodo db t now).2.nextID = db.nextID + 1 := rfl
      omega
    | del i =>
      simp only [runOps]
      have h := ih (deleteTodo db i).2
      rw [deleteTodo_nextID] at h
      exact h

theorem runOps_ids_lb : ∀ (ops : List Op) (db : SimpleDB) (x : Int),
    x ∈ (runOps db ops).2 → db.nextID ≤ x := by
  intro ops
  induction ops with
  | nil => intro db x hx; simp [runOps] at hx
  | cons op rest ih =>
    intro db x hx
    cases op with
    | create t now =>
      simp only [runOps, List.mem_cons] at hx
      have h2 : (createTodo db t now).2.nextID = db.nextID + 1 := rfl
      rcases hx with rfl | hx
      · exact le_refl _
      · have := ih (createTodo db t now).2 x hx
        omega
    | del i =>
      simp only [runOps] at hx
      have := ih (deleteTodo db i).2 x hx
      rw [deleteTodo_nextID] at this
      exact this

theorem runOps_ids_sorted : ∀ (ops : List Op) (db : SimpleDB),
    List.Pairwise (· < ·) (runOps db ops).2 := by
  intro ops
  induction ops with
  | nil => intro db; simp [runOps]
  | cons op rest ih =>
    intro db
    cases op with
    | create t now =>
      simp only [runOps]
      refine List.Pairwise.cons ?_ (ih _)
      intro x hx
      have h1 := runOps_ids_lb rest (createTodo db t now).2 x hx
      have h2 : (createTodo db t now).2.nextID = db.nextID + 1 := rfl
      have h3 : (createTodo db t now).1.id = db.nextID := rfl
      omega
    | del i =>
      simp only [runOps]
      exact ih _

/-! ### Claims C5 – C8 -/

/-- C5 counterexample: `SimpleDatabase.CreateTodo` performs no default
injection — creating `{title: "x"}` (all other fields empty) stores a
record whose priority, status and category are still empty rather than
"medium"/"pending"/"personal". -/
theorem claim5_default_injection_counterexample :
    (createTodo ⟨[], 1⟩ reqTitleX 7).1.title = "x" ∧
    (createTodo ⟨[], 1⟩ reqTitleX 7).1.priority = "" ∧
    (createTodo ⟨[], 1⟩ reqTitleX 7).1.status = "" ∧
    (createTodo ⟨[], 1⟩ reqTitleX 7).1.category = "" ∧
    (createTodo ⟨[], 1⟩ reqTitleX 7).2.todos = [(createTodo ⟨[], 1⟩ reqTitleX 7).1] ∧
    ¬ (createTodo ⟨[], 1⟩ reqTitleX 7).1.priority = "medium" := by
  decide

/-- C5 (amended): both stores' `CreateTodo` ignore the caller-supplied
id, assign the allocator's next id and stamp `createdDate` and
`lastUpdated` with the current time; the default injection of empty
status/priority/category belongs to `SQLiteDatabase.CreateTodo` only
(for the in-memory `SimpleDatabase` the HTTP/tool callers inject the
defaults before calling), and there `CreateTodo({title:"x"})` stores
priority "medium", status "pending", category "personal". -/
theorem claim5_create_defaults :
    (∀ (db : SimpleDB) (todo : Todo) (now : Int),
      (createTodo db todo now).1.id = db.nextID ∧
      (createTodo db todo now).1.createdDate = now ∧
      (createTodo db todo now).1.lastUpdated = now) ∧
    (∀ (db : SQLiteDB) (todo : Todo) (now : Int),
      (sqliteCreateTodo db todo now).1.id = db.nextID ∧
      (sqliteCreateTodo db todo now).1.createdDate = now ∧
      (sqliteCreateTodo db todo now).1.lastUpdated = now ∧
      (todo.status = "" → (sqliteCreateTodo db todo now).1.status = "pending") ∧
      (todo.status ≠ "" → (sqliteCreateTodo db todo now).1.status = todo.status) ∧
      (todo.priority = "" → (sqliteCreateTodo db todo now).1.priority = "medium") ∧
      (todo.priority ≠ "" → (sqliteCreateTodo db todo now).1.priority = todo.priority) ∧
      (todo.category = "" → (sqliteCreateTodo db todo now).1.category = "personal") ∧
      (todo.category ≠ "" → (sqliteCreateTodo db todo now).1.category = todo.category) ∧
      (sqliteCreateTodo db todo now).1.title = todo.title ∧
      (sqliteCreateTodo db todo now).2.rows = db.rows ++ [(sqliteCreateTodo db todo now).1] ∧
      (sqliteCreateTodo db todo now).2.nextID = db.nextID + 1) ∧
    (∀ (db : SQLiteDB) (now : Int),
      (sqliteCreateTodo db reqTitleX now).1.priority = "medium" ∧
      (sqliteCreateTodo db reqTitleX now).1.status = "pending" ∧
      (sqliteCreateTodo db reqTitleX now).1.category = "personal") := by
  refine ⟨fun db todo now => ⟨rfl, rfl, rfl⟩, ?_, fun db now => ⟨rfl, rfl, rfl⟩⟩
  intro db todo now
  unfold sqliteCreateTodo
  dsimp only
  split_ifs with h1 h2 h3 <;> simp_all

theorem claim5_create_defaults_witness :
    (sqliteCreateTodo ⟨[], 1⟩ reqTitleX 7).1.priority = "medium" :=
  (claim5_create_defaults.2.1 ⟨[], 1⟩ reqTitleX 7).2.2.2.2.2.1 rfl

/-- C6: `UpdateTodo` on an existing record succeeds, preserves the
stored `createdDate` (whatever the caller supplied), overwrites every
other field from the input, and sets `lastUpdated` to the current time,
which is ≥ the previous `lastUpdated` whenever the clock has not gone
backwards; on a missing id it fails with the not-found error and leaves
the store untouched. -/
theorem claim6_update_preserves_createdDate :
    (∀ (db : SimpleDB) (todo : Todo) (now : Int) (t0 : Todo),
      getTodoByID db todo.id = .ok t0 → t0.lastUpdated ≤ now →
      (updateTodo db todo now).1 = .ok () ∧
      getTodoByID (updateTodo db todo now).2 todo.id =
        .ok { todo with createdDate := t0.createdDate, lastUpdated := now } ∧
      t0.lastUpdated ≤
        ({ todo with createdDate := t0.createdDate, lastUpdated := now } : Todo).lastUpdated) ∧
    (∀ (db : SimpleDB) (todo : Todo) (now : Int),
      (∀ t ∈ db.todos, t.id ≠ todo.id) →
      updateTodo db todo now = (.error "todo not found", db)) := by
  constructor
  · intro db todo now t0 hget hle
    obtain ⟨hfind, _⟩ := getTodoByID_ok db todo.id t0 hget
    obtain ⟨l', h1, h2⟩ := updateList_some todo now db.todos t0 hfind
    unfold updateTodo
    rw [h1]
    refine ⟨rfl, ?_, hle⟩
    unfold getTodoByID
    dsimp only
    rw [h2]
  · intro db todo now h
    unfold updateTodo
    rw [updateList_none todo now db.todos h]

theorem claim6_update_witness :
    (updateTodo ⟨[itemD], 2⟩ (mkItem 1 "low" (some 9)) 5).1 = .ok () ∧
    getTodoByID (updateTodo ⟨[itemD], 2⟩ (mkItem 1 "low" (some 9)) 5).2
        (mkItem 1 "low" (some 9)).id =
      .ok { mkItem 1 "low" (some 9) with
            createdDate := itemD.createdDate,
            lastUpdated := 5 } ∧
    itemD.lastUpdated ≤
      ({ mkItem 1 "low" (some 9) with
         createdDate := itemD.createdDate,
         lastUpdated := 5 } : Todo).lastUpdated :=
  claim6_update_preserves_createdDate.1 ⟨[itemD], 2⟩ (mkItem 1 "low" (some 9)) 5 itemD
    (by rfl) (by decide)

/-- C7 counterexample: `Database.DeleteTodo` (`database.go`) reports
success for an id that is not present — deleting id 999 from an empty
table returns `ok`, not a not-found error. -/
theorem claim7_notfound_counterexample :
    databaseDeleteTodo ([] : List Todo) 999 = .ok [] := by
  rfl

/-- C7 (amended): `SimpleDatabase.DeleteTodo` (and likewise the SQLite
store, which checks `RowsAffected`) fails with the not-found error and
leaves the collection unchanged when the id is absent, and removes
exactly the first record carrying the id when it is present; the legacy
`Database.DeleteTodo` of `database.go`, however, returns success on a
missing id (the table is still unchanged). -/
theorem claim7_delete_notfound :
    (∀ (db : SimpleDB) (i : Int), (∀ t ∈ db.todos, t.id ≠ i) →
      deleteTodo db i = (.error "todo not found", db)) ∧
    (∀ (db : SimpleDB) (i : Int), (∃ t ∈ db.todos, t.id = i) →
      ∃ l1 t l2, db.todos = l1 ++ t :: l2 ∧ t.id = i ∧ (∀ u ∈ l1, u.id ≠ i) ∧
        deleteTodo db i = (.ok (), { db with todos := l1 ++ l2 })) ∧
    (∀ (table : List Todo) (i : Int), (∀ t ∈ table, t.id ≠ i) →
      databaseDeleteTodo table i = .ok table) := by
  refine ⟨?_, ?_, ?_⟩
  · intro db i h
    unfold deleteTodo
    rw [deleteFirst_none i db.todos h]
  · intro db i h
    obtain ⟨l1, t, l2, he, hid, hl1, hd⟩ := deleteFirst_some i db.todos h
    refine ⟨l1, t, l2, he, hid, hl1, ?_⟩
    unfold deleteTodo
    rw [hd]
  · intro table i h
    unfold databaseDeleteTodo
    rw [List.filter_eq_self.mpr (fun t ht => by simpa using h t ht)]

theorem claim7_delete_witness :
    deleteTodo ⟨[itemD], 2⟩ 999 = (.error "todo not found", ⟨[itemD], 2⟩) :=
  claim7_delete_notfound.1 ⟨[itemD], 2⟩ 999 (by decide)

/-- C8: a store initialised from persisted items computes its next id
as one more than the maximum existing id (1 when there are none; 8 for
ids {1,3,7}); every successful `CreateTodo` assigns exactly the current
`nextID` and advances the counter by exactly one; and along any
sequence of `CreateTodo`/`DeleteTodo` calls all assigned ids are
pairwise distinct — ids are never reused, even after deletions. -/
theorem claim8_identity_allocation :
    importNextID [] = 1 ∧
    importNextID [mkItem 1 "low" none, mkItem 3 "low" none, mkItem 7 "low" none] = 8 ∧
    (∀ l : List Todo, ∀ t ∈ l, t.id < importNextID l) ∧
    (∀ l : List Todo, l ≠ [] → (∀ t ∈ l, 1 ≤ t.id) →
      ∃ t ∈ l, importNextID l = t.id + 1) ∧
    (∀ (db : SimpleDB) (todo : Todo) (now : Int),
      (createTodo db todo now).1.id = db.nextID ∧
      (createTodo db todo now).2.nextID = db.nextID + 1) ∧
    (∀ (db : SimpleDB) (ops : List Op), ((runOps db ops).2).Nodup) := by
  refine ⟨rfl, by decide, ?_, ?_, fun db todo now => ⟨rfl, rfl⟩, ?_⟩
  · intro l t ht
    have := maxIDFold_mem_le l 0 t ht
    unfold importNextID
    omega
  · intro l hne hpos
    rcases maxIDFold_attained l 0 with h | ⟨t, ht, hid⟩
    · rcases l with _ | ⟨t, rest⟩
      · exact absurd rfl hne
      · have h1 := maxIDFold_mem_le (t :: rest) 0 t (List.mem_cons_self t rest)
        have h2 := hpos t (List.mem_cons_self t rest)
        omega
    · exact ⟨t, ht, by unfold importNextID; rw [hid]⟩
  · intro db ops
    exact List.Pairwise.imp (fun h => Int.ne_of_lt h) (runOps_ids_sorted ops db)

theorem claim8_identity_allocation_witness :
    (mkItem 3 "low" none).id <
      importNextID [mkItem 1 "low" none, mkItem 3 "low" none, mkItem 7 "low" none] :=
  claim8_identity_allocation.2.2.1 _ (mkItem 3 "low" none) (by decide)

/-! ### Facts about the tool-invocation patches -/

theorem patchDue_of_none (t : Todo) (parse : String → Option Int) :
    patchDue t none parse = t := rfl

theorem patchDue_self_of_parse_none (t : Todo) (s : String) (parse : String → Option Int)
    (hp : parse s = none) : patchDue t (some s) parse = t := by
  unfold patchDue
  dsimp only
  by_cases hs : s = ""
  · rw [if_neg (by simp [hs])]
  · rw [if_pos hs, hp]

theorem patchDue_of_empty (t : Todo) (parse : String → Option Int) :
    patchDue t (some "") parse = t := by
  unfold patchDue
  dsimp only
  rw [if_neg (by simp)]

theorem patchDue_of_parse_some (t : Todo) (s : String) (d : Int)
    (parse : String → Option Int) (hs : s ≠ "") (hp : parse s = some d) :
    patchDue t (some s) parse = { t with dueDate := some d } := by
  unfold patchDue
  dsimp only
  rw [if_pos hs, hp]

theorem patchDue_cases (t : Todo) (due : Option String) (parse : String → Option Int) :
    patchDue t due parse = t ∨ ∃ d, patchDue t due parse = { t with dueDate := some d } := by
  unfold patchDue
  rcases due with _ | s
  · exact Or.inl rfl
  · dsimp only
    split_ifs with hs
    · rcases hp : parse s with _ | d
      · exact Or.inl rfl
      · exact Or.inr ⟨d, rfl⟩
    · exact Or.inl rfl

theorem patchDue_keeps_fields (t : Todo) (due : Option String) (parse : String → Option Int) :
    (patchDue t due parse).id = t.id ∧
    (patchDue t due parse).title = t.title ∧
    (patchDue t due parse).description = t.description ∧
    (patchDue t due parse).priority = t.priority ∧
    (patchDue t due parse).status = t.status ∧
    (patchDue t due parse).category = t.category ∧
    (patchDue t due parse).estimatedDuration = t.estimatedDuration ∧
    (patchDue t due parse).createdDate = t.createdDate ∧
    (patchDue t due parse).lastUpdated = t.lastUpdated := by
  rcases patchDue_cases t due parse with h | ⟨d, h⟩ <;> rw [h] <;>
    exact ⟨rfl, rfl, rfl, rfl, rfl, rfl, rfl, rfl, rfl⟩

theorem buildCreateTodo_dueDate (args : CreateArgs) (title : String) (now : Int) :
    (buildCreateTodo args title now).dueDate = none := by
  unfold buildCreateTodo
  dsimp only
  split_ifs <;> rfl

/-- `UpdateTodo` on a record found in the store: the first matching
element is replaced by the input with the stored `createdDate` kept and
`lastUpdated` stamped. -/
theorem updateTodo_found (db : SimpleDB) (t3 : Todo) (now : Int) (t0 : Todo)
    (hfind : db.todos.find? (fun u => u.id == t3.id) = some t0) :
    (updateTodo db t3 now).1 = .ok () ∧
    getTodoByID (updateTodo db t3 now).2 t3.id =
      .ok { t3 with createdDate := t0.createdDate, lastUpdated := now } := by
  obtain ⟨l', h1, h2⟩ := updateList_some t3 now db.todos t0 hfind
  unfold updateTodo
  rw [h1]
  refine ⟨rfl, ?_⟩
  unfold getTodoByID
  dsimp only
  rw [h2]

/-- Field-by-field description of `storedAfterUpdate`. -/
theorem storedAfterUpdate_spec (t0 : Todo) (args : UpdateArgs)
    (parse : String → Option Int) (now : Int) :
    (storedAfterUpdate t0 args parse now).id = t0.id ∧
    (storedAfterUpdate t0 args parse now).createdDate = t0.createdDate ∧
    (storedAfterUpdate t0 args parse now).lastUpdated = now ∧
    (storedAfterUpdate t0 args parse now).title = args.title.getD t0.title ∧
    (storedAfterUpdate t0 args parse now).description =
      args.description.getD t0.description ∧
    (storedAfterUpdate t0 args parse now).priority = args.priority.getD t0.priority ∧
    (storedAfterUpdate t0 args parse now).status = args.status.getD t0.status ∧
    (storedAfterUpdate t0 args parse now).category = args.category.getD t0.category ∧
    (storedAfterUpdate t0 args parse now).estimatedDuration =
      args.estimated_duration.getD t0.estimatedDuration ∧
    (storedAfterUpdate t0 args parse now).dueDate =
      (patchDue (patchFields t0 args) args.due_date parse).dueDate := by
  obtain ⟨hk1, hk2, hk3, hk4, hk5, hk6, hk7, _, _⟩ :=
    patchDue_keeps_fields (patchFields t0 args) args.due_date parse
  unfold storedAfterUpdate
  exact ⟨hk1.trans rfl, rfl, rfl, hk2.trans rfl, hk3.trans rfl, hk4.trans rfl,
    hk5.trans rfl, hk6.trans rfl, hk7.trans rfl, rfl⟩

/-! ### Claims C9 and C10 -/

/-- C9 counterexample: with a due date that fails to parse
(`parseNone` sends every string, in particular "not-a-date", to a parse
failure), `executeCreateTodo` is not rejected: it succeeds and persists
the rest of the record, with no due date stored. -/
theorem claim9_validation_counterexample :
    executeCreateTodo ⟨[], 1⟩ argsBadDue parseNone 5 =
      (.ok { id := 1, title := "x", description := "", priority := "medium",
             status := "pending", createdDate := 5, dueDate := none, lastUpdated := 5,
             estimatedDuration := "", category := "personal" },
       { todos := [{ id := 1, title := "x", description := "", priority := "medium",
                     status := "pending", createdDate := 5, dueDate := none,
                     lastUpdated := 5, estimatedDuration := "", category := "personal" }],
         nextID := 2 }) := by
  rfl

/-- C9 (amended): due-date text that is not a valid timestamp is never
stored, but the creation is not rejected either — the parse failure is
silently ignored and the record is persisted without a due date. -/
theorem claim9_invalid_due_silently_dropped :
    ∀ (db : SimpleDB) (args : CreateArgs) (parse : String → Option Int) (now : Int)
      (ttl s : String),
      args.title = some ttl → args.due_date = some s → parse s = none →
      ∃ t : Todo,
        executeCreateTodo db args parse now =
          (.ok t, { todos := db.todos ++ [t], nextID := db.nextID + 1 }) ∧
        t.dueDate = none := by
  intro db args parse now ttl s ht hd hp
  simp only [executeCreateTodo, ht]
  rw [hd, patchDue_self_of_parse_none _ s parse hp]
  exact ⟨_, rfl, buildCreateTodo_dueDate args ttl now⟩

theorem claim9_invalid_due_witness :
    ∃ t : Todo,
      executeCreateTodo ⟨[], 1⟩ argsBadDue parseNone 5 =
        (.ok t, { todos := [] ++ [t], nextID := 1 + 1 }) ∧
      t.dueDate = none :=
  claim9_invalid_due_silently_dropped ⟨[], 1⟩ argsBadDue parseNone 5 "x" "not-a-date"
    rfl rfl rfl

/-- C10: the `update_todo` tool has read-modify-write patch semantics
on top of the store's full-replace update.  For a call whose id refers
to an existing record: the call succeeds; the stored record keeps its
id and `createdDate`; `lastUpdated` becomes the current time; every
field whose key is absent from the argument map keeps its previous
value; and a field is only overwritten when its key is present (the due
date furthermore only when the text is non-empty and parses). -/
theorem claim10_update_patch_semantics :
    ∀ (db : SimpleDB) (args : UpdateArgs) (parse : String → Option Int) (now : Int)
      (i : Int) (t0 : Todo),
      args.id = some i → getTodoByID db i = .ok t0 →
      ∃ r : Todo,
        (executeUpdateTodo db args parse now).1 = .ok () ∧
        getTodoByID (executeUpdateTodo db args parse now).2 i = .ok r ∧
        r.id = t0.id ∧ r.createdDate = t0.createdDate ∧ r.lastUpdated = now ∧
        (args.title = none → r.title = t0.title) ∧
        (∀ v, args.title = some v → r.title = v) ∧
        (args.description = none → r.description = t0.description) ∧
        (∀ v, args.description = some v → r.description = v) ∧
        (args.priority = none → r.priority = t0.priority) ∧
        (∀ v, args.priority = some v → r.priority = v) ∧
        (args.status = none → r.status = t0.status) ∧
        (∀ v, args.status = some v → r.status = v) ∧
        (args.category = none → r.category = t0.category) ∧
        (∀ v, args.category = some v → r.category = v) ∧
        (args.estimated_duration = none → r.estimatedDuration = t0.estimatedDuration) ∧
        (∀ v, args.estimated_duration = some v → r.estimatedDuration = v) ∧
        (args.due_date = none → r.dueDate = t0.dueDate) ∧
        (∀ v, args.due_date = some v →
          (v = "" → r.dueDate = t0.dueDate) ∧
          (parse v = none → r.dueDate = t0.dueDate) ∧
          (∀ d, v ≠ "" → parse v = some d → r.dueDate = some d)) := by
  intro db args parse now i t0 hid hget
  obtain ⟨hfind, ht0id⟩ := getTodoByID_ok db i t0 hget
  have hexec : executeUpdateTodo db args parse now =
      updateTodo db
        { patchDue (patchFields t0 args) args.due_date parse with lastUpdated := now } now := by
    simp only [executeUpdateTodo, hid, hget]
  obtain ⟨hs1, hs2, hs3, hs4, hs5, hs6, hs7, hs8, hs9, hs10⟩ :=
    storedAfterUpdate_spec t0 args parse now
  have hTid :
      ({ patchDue (patchFields t0 args) args.due_date parse with lastUpdated := now } :
        Todo).id = i := by
    rw [show ({ patchDue (patchFields t0 args) args.due_date parse with
        lastUpdated := now } : Todo).id =
        (patchDue (patchFields t0 args) args.due_date parse).id from rfl,
      (patchDue_keeps_fields (patchFields t0 args) args.due_date parse).1]
    exact ht0id
  have hfind' : db.todos.find?
      (fun u => u.id == ({ patchDue (patchFields t0 args) args.due_date parse with
        lastUpdated := now } : Todo).id) = some t0 := by
    rw [hTid]; exact hfind
  obtain ⟨hok, hstored⟩ := updateTodo_found db _ now t0 hfind'
  nth_rewrite 1 [hTid] at hstored
  refine ⟨storedAfterUpdate t0 args parse now,
    by rw [hexec]; exact hok, by rw [hexec]; exact hstored,
    hs1, hs2, hs3, ?_, ?_, ?_, ?_, ?_, ?_, ?_, ?_, ?_, ?_, ?_, ?_, ?_, ?_⟩
  · intro h; simp [hs4, h]
  · intro v h; simp [hs4, h]
  · intro h; simp [hs5, h]
  · intro v h; simp [hs5, h]
  · intro h; simp [hs6, h]
  · intro v h; simp [hs6, h]
  · intro h; simp [hs7, h]
  · intro v h; simp [hs7, h]
  · intro h; simp [hs8, h]
  · intro v h; simp [hs8, h]
  · intro h; simp [hs9, h]
  · intro v h; simp [hs9, h]
  · intro h
    rw [hs10, h, patchDue_of_none]
    rfl
  · intro v h
    refine ⟨?_, ?_, ?_⟩
    · intro hv
      subst hv
      rw [hs10, h, patchDue_of_empty]
      rfl
    · intro hp
      rw [hs10, h, patchDue_self_of_parse_none _ v parse hp]
      rfl
    · intro d hv hp
      rw [hs10, h, patchDue_of_parse_some _ v d parse hv hp]

theorem claim10_update_patch_witness :
    ∃ r : Todo,
      (executeUpdateTodo ⟨[itemD], 2⟩ argsUpd parseNone 9).1 = .ok () ∧
      getTodoByID (executeUpdateTodo ⟨[itemD], 2⟩ argsUpd parseNone 9).2 1 = .ok r ∧
      r.id = itemD.id ∧ r.createdDate = itemD.createdDate ∧ r.lastUpdated = 9 ∧
      (argsUpd.title = none → r.title = itemD.title) ∧
      (∀ v, argsUpd.title = some v → r.title = v) ∧
      (argsUpd.description = none → r.description = itemD.description) ∧
      (∀ v, argsUpd.description = some v → r.description = v) ∧
      (argsUpd.priority = none → r.priority = itemD.priority) ∧
      (∀ v, argsUpd.priority = some v → r.priority = v) ∧
      (argsUpd.status = none → r.status = itemD.status) ∧
      (∀ v, argsUpd.status = some v → r.status = v) ∧
      (argsUpd.category = none → r.category = itemD.category) ∧
      (∀ v, argsUpd.category = some v → r.category = v) ∧
      (argsUpd.estimated_duration = none → r.estimatedDuration = itemD.estimatedDuration) ∧
      (∀ v, argsUpd.estimated_duration = some v → r.estimatedDuration = v) ∧
      (argsUpd.due_date = none → r.dueDate = itemD.dueDate) ∧
      (∀ v, argsUpd.due_date = some v →
        (v = "" → r.dueDate = itemD.dueDate) ∧
        (parseNone v = none → r.dueDate = itemD.dueDate) ∧
        (∀ d, v ≠ "" → parseNone v = some d → r.dueDate = some d)) :=
  claim10_update_patch_semantics ⟨[itemD], 2⟩ argsUpd parseNone 9 1 itemD rfl rfl

end AiTodo
